import Mathlib

/-!
Verification of the counters-table client (`src/python/src/counters_table.rs`).

The client keeps one signed 64-bit counter per string key in a remote
versioned key-value table and offers `init_counter`, `increment`,
`decrement` and `get_value`.  `increment` is an optimistic
read-modify-write: read `(value, version)`, compute `value + delta`
with native wrapping `i64` addition, then conditionally write with the
read version as precondition, retrying the whole cycle on any store
failure.  The remote table and the generic retry executor live in
other crates of the repository; they are modelled here following the
interface the spec gives them, while every definition named after a
source item is a direct translation of that item.
-/

namespace Counters

/-- Signed 64-bit two-complement wrapping of a mathematical integer,
the semantics of release-mode `i64` arithmetic in the source
(`value + increment_value`, line 99). -/
def wrap64 (n : Int) : Int :=
  (n + 9223372036854775808) % 18446744073709551616 - 9223372036854775808

/-- The representable range of an `i64`. -/
abbrev inI64 (n : Int) : Prop :=
  -9223372036854775808 ≤ n ∧ n < 9223372036854775808

/-- Model of `pravega_client::sync::table::TableError` (declared in the
client crate of this repository, outside `src/`): the error kinds the
spec distinguishes, each carrying the two descriptive strings the
source builds (an operation label and an error message). -/
inductive TableError where
  | keyDoesNotExist (operation : String) (error_msg : String)
  | incorrectKeyVersion (operation : String) (error_msg : String)
  | connectionError (operation : String) (error_msg : String)
deriving DecidableEq, Repr

/-- Model of the table versions: `pravega_client::sync::table::Version`
is an opaque token; successful writes bump it, so a `Nat` suffices. -/
abbrev Version := Nat

/-- Modelled from the spec: the remote versioned key-value store of
section 6 (the `Table` collaborator is not under `src/`).  `entries`
maps each key to its current `(value, version)`; `faults` is a
schedule of injected transient store failures, one entry consumed per
store call (`none` means the call reaches the store and behaves per
the store semantics; `some e` means the call fails with `e` and leaves
the store untouched). -/
structure Env where
  entries : String → Option (Int × Version)
  faults : List (Option TableError)

/-- Consume the head of the fault schedule, if any. -/
def Env.consume (env : Env) : Env × Option TableError :=
  match env.faults with
  | [] => (env, none)
  | f :: rest => ({ env with faults := rest }, f)

/-- Modelled from the spec: `Table::get` (section 6): returns
`Option (value, version)` on success, or a store error. -/
def tableGet (env : Env) (key : String) :
    Env × Except TableError (Option (Int × Version)) :=
  match env.consume with
  | (env1, none) => (env1, .ok (env1.entries key))
  | (env1, some e) => (env1, .error e)

/-- The fault-free part of `Table::insert_conditionally`: a true
compare-and-swap on the version token, per section 6 and the glossary. -/
def tableCasCore (env : Env) (key : String) (value : Int) (expVersion : Version) :
    Env × Except TableError Version :=
  match env.entries key with
  | some (_, ver) =>
    if ver = expVersion then
      ({ env with
          entries := fun k => if k = key then some (value, ver + 1) else env.entries k },
        .ok (ver + 1))
    else
      (env, .error (.incorrectKeyVersion "insert_conditionally"
        ("incorrect version for key " ++ key)))
  | none =>
    (env, .error (.keyDoesNotExist "insert_conditionally"
      ("key " ++ key ++ " not found")))

/-- Modelled from the spec: `Table::insert_conditionally` (section 6):
a conditional write preconditioned on the expected version, subject to
injected transient faults which leave the store unchanged. -/
def tableInsertCond (env : Env) (key : String) (value : Int) (expVersion : Version) :
    Env × Except TableError Version :=
  match env.consume with
  | (env1, none) => tableCasCore env1 key value expVersion
  | (env1, some e) => (env1, .error e)

/-- Modelled from the spec: unconditional `Table::insert`
(section 4.3: ignores any existing value and version, no version
precondition; only an injected store fault can make it fail). -/
def tableInsert (env : Env) (key : String) (value : Int) :
    Env × Except TableError Version :=
  match env.consume with
  | (env1, none) =>
    let newVer : Version :=
      match env1.entries key with
      | some (_, ver) => ver + 1
      | none => 0
    ({ env1 with
        entries := fun k => if k = key then some (value, newVer) else env1.entries k },
      .ok newVer)
  | (env1, some e) => (env1, .error e)

/-- Modelled from the spec:
`pravega_client_retry::retry_result::RetryResult` (the retry crate is
not under `src/`): one attempt ends in Success, Retry or Fail
(section 4.2). -/
inductive RetryResult (S E : Type) where
  | success (value : S)
  | retry (cause : E)
  | fail (cause : E)
deriving DecidableEq, Repr

/-- Modelled from the spec: `retry_async` driven by `RetryWithBackoff`
(section 4.2), with the `.map_err` of the source folded in: invoke the
operation; Success returns its value, Fail propagates its cause
immediately, Retry re-invokes while the budget lasts, and once the
budget is exhausted the cause of the last retried attempt is the
failure.  `budget` counts the retries the policy still allows; delays
affect timing only and are elided. -/
def retryExec {S E : Type} (op : Env → Env × RetryResult S E) :
    Nat → Env → Env × Except E S
  | 0, env =>
    match op env with
    | (env1, .success v) => (env1, .ok v)
    | (env1, .fail e) => (env1, .error e)
    | (env1, .retry e) => (env1, .error e)
  | b + 1, env =>
    match op env with
    | (env1, .success v) => (env1, .ok v)
    | (env1, .fail e) => (env1, .error e)
    | (env1, .retry _) => retryExec op b env1

/-- One attempt of `impl_get_value_async` (source lines 58 to 73):
call `table.get`; a present value is Success(Ok value), an absent key
is Success(Err message), a store error is Retry. -/
def getAttempt (key : String) (env : Env) :
    Env × RetryResult (Except String Int) TableError :=
  match tableGet env key with
  | (env1, .ok (some (value, _))) => (env1, .success (.ok value))
  | (env1, .ok none) =>
    (env1, .success (.error ("Key " ++ key ++ " does not exist")))
  | (env1, .error e) => (env1, .retry e)

/-- `impl_get_value_async` (source lines 57 to 91): run the get
attempt under the retry executor, then map the nested result; the
absent-key message becomes a terminal `KeyDoesNotExist`. -/
def impl_get_value_async (budget : Nat) (env : Env) (key : String) :
    Env × Except TableError Int :=
  match retryExec (getAttempt key) budget env with
  | (env1, .ok (.ok value)) => (env1, .ok value)
  | (env1, .ok (.error msg)) =>
    (env1, .error (.keyDoesNotExist ("Get value for key " ++ key ++ ".") msg))
  | (env1, .error e) => (env1, .error e)

/-- One attempt of `impl_increment_async` (source lines 94 to 117):
read `(value, version)`, compute `new_value` with wrapping `i64`
addition, conditionally write it preconditioned on the version just
read; a failed conditional write or a failed read is Retry, an absent
key is Success(Err message). -/
def incrementAttempt (key : String) (increment_value : Int) (env : Env) :
    Env × RetryResult (Except String Unit) TableError :=
  match tableGet env key with
  | (env1, .ok (some (value, version))) =>
    let new_value := wrap64 (value + increment_value)
    match tableInsertCond env1 key new_value version with
    | (env2, .ok _) => (env2, .success (.ok ()))
    | (env2, .error e) => (env2, .retry e)
  | (env1, .ok none) =>
    (env1, .success (.error ("Key " ++ key ++ " does not exist")))
  | (env1, .error e) => (env1, .retry e)

/-- `impl_increment_async` (source lines 93 to 136): run the increment
attempt under the retry executor, then map the nested result; note the
source reuses the get-operation wording in the terminal error
(line 127). -/
def impl_increment_async (budget : Nat) (env : Env) (key : String)
    (increment_value : Int) : Env × Except TableError Unit :=
  match retryExec (incrementAttempt key increment_value) budget env with
  | (env1, .ok (.ok _)) => (env1, .ok ())
  | (env1, .ok (.error msg)) =>
    (env1, .error (.keyDoesNotExist ("Get value for key " ++ key ++ ".") msg))
  | (env1, .error e) => (env1, .error e)

/-- How a call returns to Python: a value, a raised typed exception
(`PyOSError`), or a Rust panic reaching the binding layer. -/
inductive PyCallResult (α : Type) where
  | ok (value : α)
  | raised (msg : String)
  | panicked (msg : String)
deriving DecidableEq, Repr

/-- Rendering of `TableError` by the `Debug` format the source
interpolates into its messages. -/
def debugFmt : TableError → String
  | .keyDoesNotExist op msg =>
    "KeyDoesNotExist operation: " ++ op ++ ", error_msg: " ++ msg
  | .incorrectKeyVersion op msg =>
    "IncorrectKeyVersion operation: " ++ op ++ ", error_msg: " ++ msg
  | .connectionError op msg =>
    "ConnectionError operation: " ++ op ++ ", error_msg: " ++ msg

/-- `init_counter` (source lines 145 to 150): a single unconditional
`table.insert`, whose result goes through `expect`, so a store failure
panics instead of raising. -/
def init_counter (env : Env) (key : String) (init_value : Int) :
    Env × PyCallResult Unit :=
  match tableInsert env key init_value with
  | (env1, .ok _) => (env1, .ok ())
  | (env1, .error e) =>
    (env1, .panicked ("Failed to put empty counter: " ++ debugFmt e))

/-- `increment` (source lines 156 to 168): run the async increment and
translate a `TableError` into a raised `PyOSError`. -/
def increment (budget : Nat) (env : Env) (key : String) (increment_value : Int) :
    Env × PyCallResult Unit :=
  match impl_increment_async budget env key increment_value with
  | (env1, .ok _) => (env1, .ok ())
  | (env1, .error e) =>
    (env1, .raised ("Error while attempting to acquire segment " ++ debugFmt e))

/-- Release-mode `i64` negation, the meaning of `-decrement_value` in
the source. -/
def i64neg (n : Int) : Int := wrap64 (-n)

/-- `decrement` (source lines 172 to 174): exactly
`increment(key, -decrement_value)`. -/
def decrement (budget : Nat) (env : Env) (key : String) (decrement_value : Int) :
    Env × PyCallResult Unit :=
  increment budget env key (i64neg decrement_value)

/-- `get_value` (source lines 177 to 190): run the async get and
translate a `TableError` into a raised `PyOSError`. -/
def get_value (budget : Nat) (env : Env) (key : String) :
    Env × PyCallResult Int :=
  match impl_get_value_async budget env key with
  | (env1, .ok value) => (env1, .ok value)
  | (env1, .error e) =>
    (env1, .raised ("Error while attempting to acquire segment " ++ debugFmt e))

/-! ## Interleaved executions of concurrent increments

The per-attempt structure of `incrementAttempt` (read, then a
conditional write preconditioned on the read version, then retry on a
conflict) is replayed here as a step relation over `n` concurrent
`increment` calls on one key, against a store that enforces a true
compare-and-swap on the version token (spec sections 4.3 and 5). -/

/-- The phase of one in-flight increment call: about to read, holding
a read `(value, version)` pair and about to attempt the conditional
write, or committed. -/
inductive TStatus where
  | reading
  | committing (obsValue : Int) (obsVersion : Version)
  | done
deriving DecidableEq, Repr

/-- Global state of an interleaved execution on one key: the stored
value and version, and the phase of each of the `n` calls. -/
structure CState (n : Nat) where
  value : Int
  version : Version
  threads : Fin n → TStatus

/-- One interleaving step: some call reads the current value and
version; or a call whose read version still matches commits its
wrapped sum and bumps the version; or a call whose read version is
stale fails its conditional write and goes back to the read, exactly
as the Retry classification of `incrementAttempt` re-runs the cycle. -/
inductive CStep {n : Nat} (deltas : Fin n → Int) : CState n → CState n → Prop
  | read (s : CState n) (i : Fin n) (h : s.threads i = .reading) :
      CStep deltas s
        { s with threads := Function.update s.threads i (.committing s.value s.version) }
  | casOk (s : CState n) (i : Fin n) (v : Int)
      (h : s.threads i = .committing v s.version) :
      CStep deltas s
        { value := wrap64 (v + deltas i), version := s.version + 1,
          threads := Function.update s.threads i .done }
  | casFail (s : CState n) (i : Fin n) (v : Int) (ver : Version)
      (h : s.threads i = .committing v ver) (hne : ver ≠ s.version) :
      CStep deltas s
        { s with threads := Function.update s.threads i .reading }

/-- The initial state: value `V0`, all calls about to read. -/
def cInit (n : Nat) (V0 : Int) (ver0 : Version) : CState n :=
  { value := V0, version := ver0, threads := fun _ => .reading }

/-- Sum of the deltas of the calls that have committed. -/
def sumDone {n : Nat} (deltas : Fin n → Int) (t : Fin n → TStatus) : Int :=
  Finset.univ.sum fun i => if t i = TStatus.done then deltas i else 0

/-! ## Concrete stores and executions used in the scenario theorems -/

/-- A one-counter store: key k holds 5 at version 3. -/
def entsK : String → Option (Int × Version) := fun k => if k = "k" then some (5, 3) else none

/-- The store `entsK` with no injected faults. -/
def envA : Env := ⟨entsK, []⟩

/-- An empty store with no injected faults. -/
def envAbsent : Env := ⟨fun _ => none, []⟩

/-- A connection error used to drive the fault scenarios. -/
def errConn : TableError := .connectionError "insert" "connection dropped"

/-- A second connection error, distinguishable from `errConn`. -/
def errConn2 : TableError := .connectionError "get" "connection reset"

/-- The store `entsK` whose next store call fails with `errConn`. -/
def envFault : Env := ⟨entsK, [some errConn]⟩

/-- The store `entsK` where the first get succeeds and the following
conditional write fails with `errConn`. -/
def envCasFault : Env := ⟨entsK, [none, some errConn]⟩

/-- The store `entsK` whose next two calls fail with `errConn2` then `errConn`. -/
def envTwoFaults : Env := ⟨entsK, [some errConn2, some errConn]⟩

/-- The store `entsK` where two read-write cycles each fail at the
conditional write, first with `errConn2`, last with `errConn`. -/
def envCasFaults2 : Env := ⟨entsK, [none, some errConn2, none, some errConn]⟩

/-- A one-counter store holding the i64 maximum at version 0. -/
def entsMax : String → Option (Int × Version) :=
  fun k => if k = "k" then some (9223372036854775807, 0) else none

/-- One concurrent increment of 1 starting from the i64 maximum. -/
def ovDeltas : Fin 1 → Int := fun _ => 1

/-- Initial state of the overflow execution. -/
def ovS0 : CState 1 :=
  { value := 9223372036854775807, version := 0, threads := fun _ => .reading }

/-- The overflow execution after the read step. -/
def ovS1 : CState 1 :=
  { ovS0 with threads := Function.update ovS0.threads 0 (.committing ovS0.value ovS0.version) }

/-- The overflow execution after the successful conditional write. -/
def ovS2 : CState 1 :=
  { value := wrap64 (9223372036854775807 + ovDeltas 0), version := ovS1.version + 1,
    threads := Function.update ovS1.threads 0 TStatus.done }

/-- One concurrent increment of 1 starting from 5. -/
def wDeltas : Fin 1 → Int := fun _ => 1

/-- Initial state of the small in-range execution. -/
def wS0 : CState 1 := cInit 1 5 0

/-- The in-range execution after the read step. -/
def wS1 : CState 1 :=
  { wS0 with threads := Function.update wS0.threads 0 (.committing wS0.value wS0.version) }

/-- The in-range execution after the successful conditional write. -/
def wS2 : CState 1 :=
  { value := wrap64 (5 + wDeltas 0), version := wS1.version + 1,
    threads := Function.update wS1.threads 0 TStatus.done }

/-! ## Arithmetic facts about the wrap -/

theorem wrap64_eq_of_inI64 (n : Int) (h : inI64 n) : wrap64 n = n := by
  unfold wrap64
  omega

theorem wrap64_inI64 (n : Int) : inI64 (wrap64 n) := by
  unfold wrap64
  constructor <;> omega

theorem wrap64_ne_of_not_inI64 (n : Int) (h : ¬ inI64 n) : wrap64 n ≠ n := by
  intro heq
  exact h (heq ▸ wrap64_inI64 n)

theorem wrap64_add_left (a b : Int) : wrap64 (wrap64 a + b) = wrap64 (a + b) := by
  unfold wrap64
  omega

theorem sumDone_update {n : Nat} (deltas : Fin n → Int) (t : Fin n → TStatus)
    (i : Fin n) (st : TStatus) :
    sumDone deltas (Function.update t i st) =
      sumDone deltas t - (if t i = TStatus.done then deltas i else 0)
        + (if st = TStatus.done then deltas i else 0) := by
  unfold sumDone
  have hfun : (fun j => if Function.update t i st j = TStatus.done then deltas j else 0)
      = Function.update (fun j => if t j = TStatus.done then deltas j else 0) i
          (if st = TStatus.done then deltas i else 0) := by
    funext j
    by_cases hj : j = i
    · subst hj; simp [Function.update]
    · simp [Function.update, hj]
  rw [hfun, Finset.sum_update_of_mem (Finset.mem_univ i)]
  rw [Finset.sum_eq_sum_diff_singleton_add (Finset.mem_univ i)
    (fun j => if t j = TStatus.done then deltas j else 0)]
  omega

/-- The execution invariant: the stored value is the wrapped sum of
the initial value and the committed deltas, and any call holding a
read pair has a version no newer than the store, matching the stored
value whenever the versions agree. -/
def CInv {n : Nat} (V0 : Int) (deltas : Fin n → Int) (s : CState n) : Prop :=
  s.value = wrap64 (V0 + sumDone deltas s.threads) ∧
  ∀ i v ver, s.threads i = TStatus.committing v ver →
    ver ≤ s.version ∧ (ver = s.version → v = s.value)

theorem cinv_init {n : Nat} (V0 : Int) (ver0 : Version) (deltas : Fin n → Int)
    (hV0 : inI64 V0) : CInv V0 deltas (cInit n V0 ver0) := by
  constructor
  · have hz : sumDone deltas (cInit n V0 ver0).threads = 0 := by
      unfold sumDone cInit
      simp
    rw [hz, add_zero, wrap64_eq_of_inI64 V0 hV0]
    rfl
  · intro i v ver h
    simp [cInit] at h

theorem cinv_step {n : Nat} (V0 : Int) (deltas : Fin n → Int) (s s1 : CState n)
    (hstep : CStep deltas s s1) (hinv : CInv V0 deltas s) : CInv V0 deltas s1 := by
  obtain ⟨hval, hcom⟩ := hinv
  cases hstep with
  | read i h =>
    refine ⟨?_, ?_⟩
    · dsimp only
      rw [sumDone_update, h]
      simpa using hval
    · intro j v ver hj
      dsimp only at hj ⊢
      rw [Function.update_apply] at hj
      by_cases hji : j = i
      · rw [if_pos hji] at hj
        cases hj
        exact ⟨le_refl _, fun _ => rfl⟩
      · rw [if_neg hji] at hj
        exact hcom j v ver hj
  | casOk i v h =>
    have hv : v = s.value := (hcom i v s.version h).2 rfl
    refine ⟨?_, ?_⟩
    · dsimp only
      rw [sumDone_update, h, hv, hval, wrap64_add_left]
      simp only [reduceCtorEq, if_false, if_pos rfl, sub_zero]
      congr 1
      simp
      ring
    · intro j w ver hj
      dsimp only at hj ⊢
      rw [Function.update_apply] at hj
      by_cases hji : j = i
      · rw [if_pos hji] at hj
        cases hj
      · rw [if_neg hji] at hj
        have hle := (hcom j w ver hj).1
        exact ⟨Nat.le_succ_of_le hle,
          fun hv2 => absurd hle (by rw [hv2]; exact Nat.not_succ_le_self s.version)⟩
  | casFail i v ver h hne =>
    refine ⟨?_, ?_⟩
    · dsimp only
      rw [sumDone_update, h]
      simpa using hval
    · intro j w ver1 hj
      dsimp only at hj ⊢
      rw [Function.update_apply] at hj
      by_cases hji : j = i
      · rw [if_pos hji] at hj
        cases hj
      · rw [if_neg hji] at hj
        exact hcom j w ver1 hj

theorem cinv_reach {n : Nat} (V0 : Int) (deltas : Fin n → Int) (s0 s : CState n)
    (hreach : Relation.ReflTransGen (CStep deltas) s0 s)
    (h0 : CInv V0 deltas s0) : CInv V0 deltas s := by
  induction hreach with
  | refl => exact h0
  | tail _ hstep ih => exact cinv_step V0 deltas _ _ hstep ih

theorem sumDone_all_done {n : Nat} (deltas : Fin n → Int) (t : Fin n → TStatus)
    (h : ∀ i, t i = TStatus.done) : sumDone deltas t = Finset.univ.sum deltas := by
  unfold sumDone
  exact Finset.sum_congr rfl fun i _ => by rw [h i]; simp

/-! ## Helper lemmas about the store calls and the executor -/

theorem tableGet_entries (env : Env) (key : String) :
    (tableGet env key).1.entries = env.entries := by
  rcases env with ⟨ents, fs⟩
  cases fs with
  | nil => rfl
  | cons f rest => cases f <;> rfl

theorem tableInsertCond_error_entries (env : Env) (key : String) (v : Int)
    (ver : Version) (env2 : Env) (e : TableError)
    (h : tableInsertCond env key v ver = (env2, .error e)) :
    env2.entries = env.entries := by
  rcases env with ⟨ents, fs⟩
  cases fs with
  | nil =>
    unfold tableInsertCond Env.consume tableCasCore at h
    dsimp only at h
    split at h
    next heq =>
      split at h
      · exact absurd (congrArg Prod.snd h) (by simp)
      · cases h
        rfl
    next heq => cases h; rfl
  | cons f rest =>
    cases f with
    | none =>
      unfold tableInsertCond Env.consume tableCasCore at h
      dsimp only at h
      split at h
      next heq =>
        split at h
        · exact absurd (congrArg Prod.snd h) (by simp)
        · cases h
          rfl
      next heq => cases h; rfl
    | some e1 =>
      unfold tableInsertCond Env.consume at h
      dsimp only at h
      cases h
      rfl

theorem incrementAttempt_entries (key : String) (d : Int) (env : Env) :
    (incrementAttempt key d env).2 = RetryResult.success (Except.ok ())
    ∨ (incrementAttempt key d env).1.entries = env.entries := by
  unfold incrementAttempt
  split
  next env1 v ver heq =>
    have h1 : env1.entries = env.entries := by
      have := tableGet_entries env key
      rw [heq] at this
      exact this
    dsimp only
    split
    next env2 w heq2 => exact Or.inl rfl
    next env2 e heq2 =>
      refine Or.inr ?_
      rw [(tableInsertCond_error_entries env1 key _ ver env2 e heq2 : env2.entries = env1.entries)]
      exact h1
  next env1 heq =>
    refine Or.inr ?_
    have := tableGet_entries env key
    rw [heq] at this
    exact this
  next env1 e heq =>
    refine Or.inr ?_
    have := tableGet_entries env key
    rw [heq] at this
    exact this

theorem retryExec_entries
    (op : Env → Env × RetryResult (Except String Unit) TableError)
    (hop : ∀ env, (op env).2 = RetryResult.success (Except.ok ())
      ∨ (op env).1.entries = env.entries) :
    ∀ (budget : Nat) (env : Env),
      (retryExec op budget env).2 = Except.ok (Except.ok ())
      ∨ (retryExec op budget env).1.entries = env.entries := by
  intro budget
  induction budget with
  | zero =>
    intro env
    have hp := hop env
    unfold retryExec
    rcases h : op env with ⟨env1, r⟩
    rw [h] at hp
    dsimp only at hp
    cases r with
    | success v =>
      cases v with
      | ok u => exact Or.inl rfl
      | error msg =>
        rcases hp with hp | hp
        · exact absurd hp (by simp)
        · exact Or.inr hp
    | retry e =>
      rcases hp with hp | hp
      · exact absurd hp (by simp)
      · exact Or.inr hp
    | fail e =>
      rcases hp with hp | hp
      · exact absurd hp (by simp)
      · exact Or.inr hp
  | succ b ih =>
    intro env
    have hp := hop env
    unfold retryExec
    rcases h : op env with ⟨env1, r⟩
    rw [h] at hp
    dsimp only at hp
    cases r with
    | success v =>
      cases v with
      | ok u => exact Or.inl rfl
      | error msg =>
        rcases hp with hp | hp
        · exact absurd hp (by simp)
        · exact Or.inr hp
    | retry e =>
      rcases hp with hp | hp
      · exact absurd hp (by simp)
      · rcases ih env1 with h2 | h2
        · exact Or.inl h2
        · exact Or.inr (h2.trans hp)
    | fail e =>
      rcases hp with hp | hp
      · exact absurd hp (by simp)
      · exact Or.inr hp

/-! ## Exhaustion: every attempt retries until the budget runs out -/

theorem incrementAttempt_cas_fault (key : String) (d : Int)
    (ents : String → Option (Int × Version)) (v : Int) (ver : Version)
    (e : TableError) (tail : List (Option TableError))
    (hk : ents key = some (v, ver)) :
    incrementAttempt key d ⟨ents, none :: some e :: tail⟩ =
      (⟨ents, tail⟩, .retry e) := by
  have h0 : tableGet ⟨ents, none :: some e :: tail⟩ key
      = (⟨ents, some e :: tail⟩, .ok (ents key)) := rfl
  have h1 : tableGet ⟨ents, none :: some e :: tail⟩ key
      = (⟨ents, some e :: tail⟩, .ok (some (v, ver))) := by rw [h0, hk]
  unfold incrementAttempt
  rw [h1]
  rfl

theorem retryExec_getAttempt_faults (key : String) :
    ∀ (budget : Nat) (ents : String → Option (Int × Version))
      (es : List TableError) (elast : TableError)
      (rest : List (Option TableError)), es.length = budget →
      retryExec (getAttempt key) budget ⟨ents, (es ++ [elast]).map some ++ rest⟩ =
        (⟨ents, rest⟩, .error elast) := by
  intro budget
  induction budget with
  | zero =>
    intro ents es elast rest hlen
    rw [List.eq_nil_of_length_eq_zero hlen]
    rfl
  | succ b ih =>
    intro ents es elast rest hlen
    cases es with
    | nil => cases hlen
    | cons e es1 =>
      have hstep :
          retryExec (getAttempt key) (b + 1)
              ⟨ents, ((e :: es1) ++ [elast]).map some ++ rest⟩ =
            retryExec (getAttempt key) b
              ⟨ents, (es1 ++ [elast]).map some ++ rest⟩ := rfl
      rw [hstep]
      exact ih ents es1 elast rest (by simpa using hlen)

theorem retryExec_incrAttempt_get_faults (key : String) (d : Int) :
    ∀ (budget : Nat) (ents : String → Option (Int × Version))
      (es : List TableError) (elast : TableError)
      (rest : List (Option TableError)), es.length = budget →
      retryExec (incrementAttempt key d) budget
          ⟨ents, (es ++ [elast]).map some ++ rest⟩ =
        (⟨ents, rest⟩, .error elast) := by
  intro budget
  induction budget with
  | zero =>
    intro ents es elast rest hlen
    rw [List.eq_nil_of_length_eq_zero hlen]
    rfl
  | succ b ih =>
    intro ents es elast rest hlen
    cases es with
    | nil => cases hlen
    | cons e es1 =>
      have hstep :
          retryExec (incrementAttempt key d) (b + 1)
              ⟨ents, ((e :: es1) ++ [elast]).map some ++ rest⟩ =
            retryExec (incrementAttempt key d) b
              ⟨ents, (es1 ++ [elast]).map some ++ rest⟩ := rfl
      rw [hstep]
      exact ih ents es1 elast rest (by simpa using hlen)

theorem retryExec_incrAttempt_cas_faults (key : String) (d : Int)
    (ents : String → Option (Int × Version)) (v : Int) (ver : Version)
    (hk : ents key = some (v, ver)) :
    ∀ (budget : Nat) (es : List TableError) (elast : TableError)
      (rest : List (Option TableError)), es.length = budget →
      retryExec (incrementAttempt key d) budget
          ⟨ents, (es ++ [elast]).flatMap (fun e => [none, some e]) ++ rest⟩ =
        (⟨ents, rest⟩, .error elast) := by
  intro budget
  induction budget with
  | zero =>
    intro es elast rest hlen
    rw [List.eq_nil_of_length_eq_zero hlen]
    have hatt := incrementAttempt_cas_fault key d ents v ver elast rest hk
    show retryExec (incrementAttempt key d) 0 ⟨ents, none :: some elast :: rest⟩ = _
    unfold retryExec
    rw [hatt]
  | succ b ih =>
    intro es elast rest hlen
    cases es with
    | nil => cases hlen
    | cons e es1 =>
      have hatt := incrementAttempt_cas_fault key d ents v ver e
        ((es1 ++ [elast]).flatMap (fun x => [none, some x]) ++ rest) hk
      show retryExec (incrementAttempt key d) (b + 1)
          ⟨ents, none :: some e :: ((es1 ++ [elast]).flatMap (fun x => [none, some x]) ++ rest)⟩ = _
      unfold retryExec
      rw [hatt]
      exact ih es1 elast rest (by simpa using hlen)

/-! ## First-attempt and absent-key lemmas -/

theorem retryExec_first_success {S E : Type}
    (op : Env → Env × RetryResult S E) (budget : Nat) (env env1 : Env) (v : S)
    (h : op env = (env1, RetryResult.success v)) :
    retryExec op budget env = (env1, .ok v) := by
  cases budget <;> (unfold retryExec; rw [h])

theorem getAttempt_present (ents : String → Option (Int × Version)) (key : String)
    (v : Int) (ver : Version) (hk : ents key = some (v, ver)) :
    getAttempt key ⟨ents, []⟩ = (⟨ents, []⟩, RetryResult.success (Except.ok v)) := by
  have h0 : tableGet ⟨ents, []⟩ key = (⟨ents, []⟩, .ok (ents key)) := rfl
  unfold getAttempt
  rw [h0, hk]

theorem getAttempt_absent (ents : String → Option (Int × Version)) (key : String)
    (hk : ents key = none) :
    getAttempt key ⟨ents, []⟩ =
      (⟨ents, []⟩, RetryResult.success (Except.error ("Key " ++ key ++ " does not exist"))) := by
  have h0 : tableGet ⟨ents, []⟩ key = (⟨ents, []⟩, .ok (ents key)) := rfl
  unfold getAttempt
  rw [h0, hk]

theorem impl_get_value_present (ents : String → Option (Int × Version)) (key : String)
    (v : Int) (ver : Version) (budget : Nat) (hk : ents key = some (v, ver)) :
    impl_get_value_async budget ⟨ents, []⟩ key = (⟨ents, []⟩, .ok v) := by
  unfold impl_get_value_async
  rw [retryExec_first_success _ budget _ _ _ (getAttempt_present ents key v ver hk)]

theorem impl_get_value_absent (ents : String → Option (Int × Version)) (key : String)
    (budget : Nat) (hk : ents key = none) :
    impl_get_value_async budget ⟨ents, []⟩ key =
      (⟨ents, []⟩, .error (TableError.keyDoesNotExist
        ("Get value for key " ++ key ++ ".") ("Key " ++ key ++ " does not exist"))) := by
  unfold impl_get_value_async
  rw [retryExec_first_success _ budget _ _ _ (getAttempt_absent ents key hk)]

theorem get_value_present (ents : String → Option (Int × Version)) (key : String)
    (v : Int) (ver : Version) (budget : Nat) (hk : ents key = some (v, ver)) :
    get_value budget ⟨ents, []⟩ key = (⟨ents, []⟩, .ok v) := by
  unfold get_value
  rw [impl_get_value_present ents key v ver budget hk]

theorem incrementAttempt_absent (ents : String → Option (Int × Version)) (key : String)
    (d : Int) (hk : ents key = none) :
    incrementAttempt key d ⟨ents, []⟩ =
      (⟨ents, []⟩, RetryResult.success (Except.error ("Key " ++ key ++ " does not exist"))) := by
  have h0 : tableGet ⟨ents, []⟩ key = (⟨ents, []⟩, .ok (ents key)) := rfl
  unfold incrementAttempt
  rw [h0, hk]

theorem impl_increment_absent (ents : String → Option (Int × Version)) (key : String)
    (d : Int) (budget : Nat) (hk : ents key = none) :
    impl_increment_async budget ⟨ents, []⟩ key d =
      (⟨ents, []⟩, .error (TableError.keyDoesNotExist
        ("Get value for key " ++ key ++ ".") ("Key " ++ key ++ " does not exist"))) := by
  unfold impl_increment_async
  rw [retryExec_first_success _ budget _ _ _ (incrementAttempt_absent ents key d hk)]

theorem tableInsertCond_clean (ents : String → Option (Int × Version)) (key : String)
    (w v : Int) (ver : Version) (hk : ents key = some (v, ver)) :
    tableInsertCond ⟨ents, []⟩ key w ver =
      (⟨fun k => if k = key then some (w, ver + 1) else ents k, []⟩, .ok (ver + 1)) := by
  have h0 : tableInsertCond ⟨ents, []⟩ key w ver = tableCasCore ⟨ents, []⟩ key w ver := rfl
  rw [h0]
  unfold tableCasCore
  dsimp only
  rw [hk]
  simp

theorem incrementAttempt_clean (ents : String → Option (Int × Version)) (key : String)
    (d v : Int) (ver : Version) (hk : ents key = some (v, ver)) :
    incrementAttempt key d ⟨ents, []⟩ =
      (⟨fun k => if k = key then some (wrap64 (v + d), ver + 1) else ents k, []⟩,
        RetryResult.success (Except.ok ())) := by
  have h0 : tableGet ⟨ents, []⟩ key = (⟨ents, []⟩, .ok (ents key)) := rfl
  unfold incrementAttempt
  rw [h0, hk]
  dsimp only
  rw [tableInsertCond_clean ents key (wrap64 (v + d)) v ver hk]

theorem increment_never_panics (budget : Nat) (env : Env) (key : String) (d : Int)
    (m : String) : (increment budget env key d).2 ≠ PyCallResult.panicked m := by
  unfold increment
  rcases h2 : impl_increment_async budget env key d with ⟨env2, r⟩
  cases r <;> simp

theorem get_value_never_panics (budget : Nat) (env : Env) (key : String)
    (m : String) : (get_value budget env key).2 ≠ PyCallResult.panicked m := by
  unfold get_value
  rcases h2 : impl_get_value_async budget env key with ⟨env2, r⟩
  cases r <;> simp

/-! ## The claims -/

/-- Claim C1: each retry attempt of increment performs one full
read-modify-write cycle: after the read of this attempt returns a value and a
version, the rest of the attempt is exactly a conditional write of the
computed sum whose precondition is that same version; a failed conditional
write and a failed read are both classified Retry; and on Retry the executor
re-runs the whole attempt against the store as the previous attempt left it,
reading the current value afresh. -/
theorem increment_retry_cycle (key : String) (d : Int) :
    (∀ env env1 v ver, tableGet env key = (env1, .ok (some (v, ver))) →
      incrementAttempt key d env =
        (match tableInsertCond env1 key (wrap64 (v + d)) ver with
          | (env2, .ok _) => (env2, RetryResult.success (Except.ok ()))
          | (env2, .error e) => (env2, RetryResult.retry e))) ∧
    (∀ env env1 v ver env2 e, tableGet env key = (env1, .ok (some (v, ver))) →
      tableInsertCond env1 key (wrap64 (v + d)) ver = (env2, .error e) →
      incrementAttempt key d env = (env2, RetryResult.retry e)) ∧
    (∀ env env1 e, tableGet env key = (env1, .error e) →
      incrementAttempt key d env = (env1, RetryResult.retry e)) ∧
    (∀ budget env env1 e, incrementAttempt key d env = (env1, RetryResult.retry e) →
      retryExec (incrementAttempt key d) (budget + 1) env =
        retryExec (incrementAttempt key d) budget env1) := by
  refine ⟨?_, ?_, ?_, ?_⟩
  · intro env env1 v ver h
    unfold incrementAttempt
    rw [h]
  · intro env env1 v ver env2 e h h2
    unfold incrementAttempt
    rw [h]
    dsimp only
    rw [h2]
  · intro env env1 e h
    unfold incrementAttempt
    rw [h]
  · intro budget env env1 e h
    conv_lhs => rw [retryExec]
    rw [h]

/-- Witness for C1 at a concrete store: the read of key k returns (5, 3), the
conditional write is injected to fail, the attempt is classified Retry with
that cause, and the executor re-runs the attempt on the post-attempt store. -/
theorem increment_retry_cycle_witness :
    incrementAttempt "k" 2 envCasFault = (⟨entsK, []⟩, RetryResult.retry errConn) ∧
    retryExec (incrementAttempt "k" 2) 1 envCasFault =
      retryExec (incrementAttempt "k" 2) 0 ⟨entsK, []⟩ :=
  ⟨(increment_retry_cycle "k" 2).2.1 envCasFault ⟨entsK, [some errConn]⟩ 5 3
      ⟨entsK, []⟩ errConn rfl rfl,
    (increment_retry_cycle "k" 2).2.2.2 0 envCasFault ⟨entsK, []⟩ errConn rfl⟩

/-- Claim C3: getValue classifies the get outcome: value present succeeds
with that value; key absent fails with KeyDoesNotExist immediately, for every
retry budget, without consuming any retry; a store error makes the attempt
Retry.  In particular getValue on a never-initialized key fails with
KeyDoesNotExist. -/
theorem get_value_classification (key : String) :
    (∀ ents v ver budget, ents key = some (v, ver) →
      impl_get_value_async budget ⟨ents, []⟩ key = (⟨ents, []⟩, .ok v)) ∧
    (∀ ents budget, ents key = none →
      impl_get_value_async budget ⟨ents, []⟩ key =
        (⟨ents, []⟩, .error (TableError.keyDoesNotExist
          ("Get value for key " ++ key ++ ".") ("Key " ++ key ++ " does not exist")))) ∧
    (∀ env e rest, env.faults = some e :: rest →
      getAttempt key env = ({ env with faults := rest }, RetryResult.retry e)) := by
  refine ⟨?_, ?_, ?_⟩
  · intro ents v ver budget hk
    exact impl_get_value_present ents key v ver budget hk
  · intro ents budget hk
    exact impl_get_value_absent ents key budget hk
  · intro env e rest hf
    rcases env with ⟨ents, fs⟩
    dsimp only at hf
    subst hf
    rfl

/-- Witness for C3: a present key returns its value, an absent key fails
terminally with KeyDoesNotExist, and an injected store error is Retry. -/
theorem get_value_classification_witness :
    impl_get_value_async 2 envA "k" = (envA, .ok 5) ∧
    impl_get_value_async 2 envAbsent "k" =
      (envAbsent, .error (TableError.keyDoesNotExist "Get value for key k."
        "Key k does not exist")) ∧
    getAttempt "k" envFault = (⟨entsK, []⟩, RetryResult.retry errConn) :=
  ⟨(get_value_classification "k").1 entsK 5 3 2 rfl,
    (get_value_classification "k").2.1 (fun _ => none) 2 rfl,
    (get_value_classification "k").2.2 envFault errConn [] rfl⟩

/-- Claim C5: decrement(key, d) is defined as increment(key, -d), the
negation being the i64 negation of the source; it yields the same store state
and the same result, and for every delta whose negation is representable the
applied delta is exactly the mathematical -d. -/
theorem decrement_is_neg_increment (budget : Nat) (env : Env) (key : String) (d : Int) :
    decrement budget env key d = increment budget env key (i64neg d) ∧
    (inI64 (-d) → i64neg d = -d) :=
  ⟨rfl, fun h => wrap64_eq_of_inI64 _ h⟩

/-- Witness for C5 at delta 5 on the concrete store. -/
theorem decrement_is_neg_increment_witness :
    decrement 2 envA "k" 5 = increment 2 envA "k" (i64neg 5) ∧ i64neg 5 = -5 :=
  ⟨(decrement_is_neg_increment 2 envA "k" 5).1,
    (decrement_is_neg_increment 2 envA "k" 5).2 (by decide)⟩

/-- Claim C10: the candidate new value is computed by unchecked wrapping
64-bit addition: the value written by a clean read-modify-write cycle is the
two-complement wrap of value + delta, which stays in the i64 range, differs
from the mathematical sum whenever that sum is out of range, and is still
classified Success, never as an error. -/
theorem increment_wrapping_add (key : String) (d : Int)
    (ents : String → Option (Int × Version)) (v : Int) (ver : Version)
    (hk : ents key = some (v, ver)) :
    incrementAttempt key d ⟨ents, []⟩ =
      (⟨fun k => if k = key then some (wrap64 (v + d), ver + 1) else ents k, []⟩,
        RetryResult.success (Except.ok ())) ∧
    inI64 (wrap64 (v + d)) ∧
    (¬ inI64 (v + d) → wrap64 (v + d) ≠ v + d) :=
  ⟨incrementAttempt_clean ents key d v ver hk, wrap64_inI64 _,
    fun h => wrap64_ne_of_not_inI64 _ h⟩

/-- Witness for C10: incrementing the i64 maximum by 1 succeeds and writes
the wrapped sum, which is not the mathematical sum. -/
theorem increment_wrapping_add_witness :
    incrementAttempt "k" 1 ⟨entsMax, []⟩ =
      (⟨fun k => if k = "k" then some (wrap64 (9223372036854775807 + 1), 0 + 1)
          else entsMax k, []⟩,
        RetryResult.success (Except.ok ())) ∧
    wrap64 (9223372036854775807 + 1) ≠ 9223372036854775807 + 1 :=
  ⟨(increment_wrapping_add "k" 1 entsMax 9223372036854775807 0 rfl).1,
    (increment_wrapping_add "k" 1 entsMax 9223372036854775807 0 rfl).2.2 (by decide)⟩

/-- Claim C2 counterexample: with the store holding the i64 maximum, a single
increment of 1 runs to completion (read, then successful conditional write)
yet the final stored value is the wrapped sum, not V0 + 1 — so the claimed
unqualified equality with the mathematical sum fails. -/
theorem concurrent_increments_sum_counterexample :
    CStep ovDeltas ovS0 ovS1 ∧ CStep ovDeltas ovS1 ovS2 ∧
    ovS2.threads 0 = TStatus.done ∧
    ovS2.value ≠ 9223372036854775807 + 1 := by
  refine ⟨?_, ?_, ?_, ?_⟩
  · exact CStep.read ovS0 0 rfl
  · exact CStep.casOk ovS1 0 9223372036854775807 (by decide)
  · decide
  · decide

/-- Claim C2 (amended): in every interleaved execution of concurrent
increments against a CAS-enforcing store, a call whose conditional write is
about to succeed observed exactly the current committed value (no update is
lost), and once every call has committed the stored value is the i64 wrap of
V0 plus the sum of the deltas — equal to the mathematical sum whenever that
sum is representable. -/
theorem concurrent_increments_no_lost_update {n : Nat} (V0 : Int) (ver0 : Version)
    (deltas : Fin n → Int) (hV0 : inI64 V0) (s : CState n)
    (hreach : Relation.ReflTransGen (CStep deltas) (cInit n V0 ver0) s) :
    (∀ i v, s.threads i = TStatus.committing v s.version → v = s.value) ∧
    ((∀ i, s.threads i = TStatus.done) →
      s.value = wrap64 (V0 + Finset.univ.sum deltas) ∧
      (inI64 (V0 + Finset.univ.sum deltas) →
        s.value = V0 + Finset.univ.sum deltas)) := by
  have hinv := cinv_reach V0 deltas (cInit n V0 ver0) s hreach (cinv_init V0 ver0 deltas hV0)
  refine ⟨fun i v h => (hinv.2 i v s.version h).2 rfl, fun hdone => ?_⟩
  have hv : s.value = wrap64 (V0 + Finset.univ.sum deltas) := by
    rw [hinv.1, sumDone_all_done deltas s.threads hdone]
  exact ⟨hv, fun hin => by rw [hv, wrap64_eq_of_inI64 _ hin]⟩

/-- Witness for the amended C2: a full in-range execution of one increment of
1 from value 5 commits exactly the wrapped (here exact) sum. -/
theorem concurrent_increments_no_lost_update_witness :
    wS2.value = wrap64 (5 + Finset.univ.sum wDeltas) ∧
    (inI64 (5 + Finset.univ.sum wDeltas) → wS2.value = 5 + Finset.univ.sum wDeltas) :=
  (concurrent_increments_no_lost_update 5 0 wDeltas (by decide) wS2
      (Relation.ReflTransGen.tail
        (Relation.ReflTransGen.tail Relation.ReflTransGen.refl
          (CStep.read wS0 0 rfl))
        (CStep.casOk wS1 0 5 (by decide)))).2 (by decide)

/-- Claim C4: an increment call that returns a failure — terminal
KeyDoesNotExist or retry exhaustion — leaves the stored entries (value and
version of every key) exactly as they were: the only write it performs is
the conditional write whose success makes the call succeed. -/
theorem increment_failure_unchanged (budget : Nat) (env env1 : Env) (key : String)
    (d : Int) (e : TableError)
    (h : impl_increment_async budget env key d = (env1, .error e)) :
    env1.entries = env.entries := by
  have hr := retryExec_entries (incrementAttempt key d)
    (incrementAttempt_entries key d) budget env
  unfold impl_increment_async at h
  rcases h2 : retryExec (incrementAttempt key d) budget env with ⟨env2, r⟩
  rw [h2] at h hr
  dsimp only at hr
  cases r with
  | ok v =>
    cases v with
    | ok u => simp at h
    | error msg =>
      dsimp only at h
      cases h
      rcases hr with hr | hr
      · exact absurd hr (by simp)
      · exact hr
  | error e2 =>
    dsimp only at h
    cases h
    rcases hr with hr | hr
    · exact absurd hr (by simp)
    · exact hr

/-- Witness for C4: increment on the empty store fails with KeyDoesNotExist
and the entries map is untouched. -/
theorem increment_failure_unchanged_witness :
    impl_increment_async 3 envAbsent "k" 1 =
      (envAbsent, .error (TableError.keyDoesNotExist "Get value for key k."
        "Key k does not exist")) ∧
    envAbsent.entries = envAbsent.entries :=
  ⟨rfl, increment_failure_unchanged 3 envAbsent envAbsent "k" 1
    (TableError.keyDoesNotExist "Get value for key k." "Key k does not exist") rfl⟩

/-- Claim C6: initCounter performs one unconditional write: whatever the
prior state of the key — absent, or present with any value and version — the
call succeeds (a version conflict cannot make it retry or fail, there being
no version precondition), the key afterwards holds exactly the initial value,
and an immediate getValue returns it. -/
theorem init_counter_overwrites (env : Env) (key : String) (v : Int) (budget : Nat)
    (hclean : env.faults = []) :
    (init_counter env key v).2 = PyCallResult.ok () ∧
    (∃ ver, (init_counter env key v).1.entries key = some (v, ver)) ∧
    get_value budget (init_counter env key v).1 key =
      ((init_counter env key v).1, .ok v) := by
  rcases env with ⟨ents, fs⟩
  dsimp only at hclean
  subst hclean
  obtain ⟨ver, hins⟩ : ∃ ver, tableInsert ⟨ents, []⟩ key v =
      (⟨fun k => if k = key then some (v, ver) else ents k, []⟩, .ok ver) := by
    cases hk : ents key with
    | none =>
      refine ⟨0, ?_⟩
      unfold tableInsert Env.consume
      dsimp only
      rw [hk]
    | some p =>
      obtain ⟨v0, ver0⟩ := p
      refine ⟨ver0 + 1, ?_⟩
      unfold tableInsert Env.consume
      dsimp only
      rw [hk]
  have hini : init_counter ⟨ents, []⟩ key v =
      (⟨fun k => if k = key then some (v, ver) else ents k, []⟩, PyCallResult.ok ()) := by
    unfold init_counter
    rw [hins]
  rw [hini]
  refine ⟨rfl, ⟨ver, by simp⟩, ?_⟩
  exact get_value_present (fun k => if k = key then some (v, ver) else ents k)
    key v ver budget (by simp)

/-- Witness for C6: initializing key k to 42 over an existing entry (5 at
version 3) succeeds, stores 42, and getValue then returns 42. -/
theorem init_counter_overwrites_witness :
    (init_counter envA "k" 42).2 = PyCallResult.ok () ∧
    (∃ ver, (init_counter envA "k" 42).1.entries "k" = some (42, ver)) ∧
    get_value 2 (init_counter envA "k" 42).1 "k" =
      ((init_counter envA "k" 42).1, .ok 42) :=
  init_counter_overwrites envA "k" 42 2 rfl

/-- Claim C7 counterexample: with a store failure injected under
init_counter, the call ends in a panic (from the expect on line 148 of the
source), not in a raised typed error — so not every failure is surfaced
through the typed error convention. -/
theorem init_counter_panics :
    (init_counter envFault "k" 0).2 =
      PyCallResult.panicked ("Failed to put empty counter: " ++ debugFmt errConn) := rfl

/-- Claim C7 (amended): increment, decrement and getValue surface every
failure as a raised typed error carrying the translated cause, and never
panic; init_counter, however, either succeeds or panics on a store failure —
it never raises a typed error. -/
theorem error_propagation (budget : Nat) (env : Env) (key : String) (d v : Int) :
    (∀ env1 e, impl_increment_async budget env key d = (env1, .error e) →
      increment budget env key d =
        (env1, .raised ("Error while attempting to acquire segment " ++ debugFmt e))) ∧
    (∀ env1 e, impl_get_value_async budget env key = (env1, .error e) →
      get_value budget env key =
        (env1, .raised ("Error while attempting to acquire segment " ++ debugFmt e))) ∧
    (∀ m, (increment budget env key d).2 ≠ PyCallResult.panicked m) ∧
    (∀ m, (get_value budget env key).2 ≠ PyCallResult.panicked m) ∧
    (∀ m, (decrement budget env key d).2 ≠ PyCallResult.panicked m) ∧
    ((init_counter env key v).2 = PyCallResult.ok ()
      ∨ ∃ m, (init_counter env key v).2 = PyCallResult.panicked m) := by
  refine ⟨?_, ?_, ?_, ?_, ?_, ?_⟩
  · intro env1 e h
    unfold increment
    rw [h]
  · intro env1 e h
    unfold get_value
    rw [h]
  · exact fun m => increment_never_panics budget env key d m
  · exact fun m => get_value_never_panics budget env key m
  · exact fun m => increment_never_panics budget env key (i64neg d) m
  · unfold init_counter
    rcases h2 : tableInsert env key v with ⟨env2, r⟩
    cases r with
    | ok w => exact Or.inl rfl
    | error e => exact Or.inr ⟨"Failed to put empty counter: " ++ debugFmt e, rfl⟩

/-- Witness for the amended C7: a failing increment raises the translated
typed error, and init_counter on the clean store returns ok. -/
theorem error_propagation_witness :
    increment 0 envFault "k" 1 =
      (⟨entsK, []⟩, PyCallResult.raised
        ("Error while attempting to acquire segment " ++ debugFmt errConn)) ∧
    ((init_counter envA "k" 0).2 = PyCallResult.ok ()
      ∨ ∃ m, (init_counter envA "k" 0).2 = PyCallResult.panicked m) :=
  ⟨(error_propagation 0 envFault "k" 1 0).1 ⟨entsK, []⟩ errConn rfl,
    (error_propagation 0 envA "k" 1 0).2.2.2.2.2⟩

/-- Claim C8: when the retry budget is exhausted by a run of transient
outcomes, the failure surfaced is exactly the cause of the last retried
attempt, verbatim — for getValue under store errors, and for increment both
under read errors and under conditional-write failures. -/
theorem exhaustion_surfaces_last_cause (key : String) (d : Int) :
    (∀ budget ents es elast rest, List.length es = budget →
      impl_get_value_async budget ⟨ents, (es ++ [elast]).map some ++ rest⟩ key =
        (⟨ents, rest⟩, .error elast)) ∧
    (∀ budget ents es elast rest, List.length es = budget →
      impl_increment_async budget ⟨ents, (es ++ [elast]).map some ++ rest⟩ key d =
        (⟨ents, rest⟩, .error elast)) ∧
    (∀ budget ents v ver es elast rest, ents key = some (v, ver) →
      List.length es = budget →
      impl_increment_async budget
          ⟨ents, (es ++ [elast]).flatMap (fun e => [none, some e]) ++ rest⟩ key d =
        (⟨ents, rest⟩, .error elast)) := by
  refine ⟨?_, ?_, ?_⟩
  · intro budget ents es elast rest hlen
    unfold impl_get_value_async
    rw [retryExec_getAttempt_faults key budget ents es elast rest hlen]
  · intro budget ents es elast rest hlen
    unfold impl_increment_async
    rw [retryExec_incrAttempt_get_faults key d budget ents es elast rest hlen]
  · intro budget ents v ver es elast rest hk hlen
    unfold impl_increment_async
    rw [retryExec_incrAttempt_cas_faults key d ents v ver hk budget es elast rest hlen]

/-- Witness for C8: with a budget of one retry and two distinct injected
causes, both getValue and increment surface the second (last) cause, for
read faults and for conditional-write faults alike. -/
theorem exhaustion_surfaces_last_cause_witness :
    impl_get_value_async 1 envTwoFaults "k" = (⟨entsK, []⟩, .error errConn) ∧
    impl_increment_async 1 envCasFaults2 "k" 1 = (⟨entsK, []⟩, .error errConn) :=
  ⟨(exhaustion_surfaces_last_cause "k" 1).1 1 entsK [errConn2] errConn [] rfl,
    (exhaustion_surfaces_last_cause "k" 1).2.2 1 entsK 5 3 [errConn2] errConn [] rfl rfl⟩

/-- Claim C9 counterexample: the terminal KeyDoesNotExist error of increment
on a missing key carries the strings built on lines 111 and 127 of the
source: its operation field reads like the getValue one — it names the get
operation, not increment or decrement — so the message does not include the
attempted operation for increment. -/
theorem increment_error_names_get :
    impl_increment_async 0 envAbsent "missing" 1 =
      (envAbsent, .error (TableError.keyDoesNotExist "Get value for key missing."
        "Key missing does not exist")) := rfl

/-- Claim C9 (amended): the terminal KeyDoesNotExist errors of getValue and
increment both carry descriptive strings that include the key; the operation
string names the get operation for getValue and — reused verbatim by the
source — the same get wording for increment, rather than the increment
operation. -/
theorem key_missing_error_strings (key : String) (d : Int) (budget : Nat)
    (ents : String → Option (Int × Version)) (hk : ents key = none) :
    impl_get_value_async budget ⟨ents, []⟩ key =
      (⟨ents, []⟩, .error (TableError.keyDoesNotExist
        ("Get value for key " ++ key ++ ".") ("Key " ++ key ++ " does not exist"))) ∧
    impl_increment_async budget ⟨ents, []⟩ key d =
      (⟨ents, []⟩, .error (TableError.keyDoesNotExist
        ("Get value for key " ++ key ++ ".") ("Key " ++ key ++ " does not exist"))) :=
  ⟨impl_get_value_absent ents key budget hk, impl_increment_absent ents key d budget hk⟩

/-- Witness for the amended C9 at the key named missing. -/
theorem key_missing_error_strings_witness :
    impl_get_value_async 1 envAbsent "missing" =
      (envAbsent, .error (TableError.keyDoesNotExist "Get value for key missing."
        "Key missing does not exist")) ∧
    impl_increment_async 1 envAbsent "missing" 7 =
      (envAbsent, .error (TableError.keyDoesNotExist "Get value for key missing."
        "Key missing does not exist")) :=
  key_missing_error_strings "missing" 7 1 (fun _ => none) rfl

end Counters
